import Mathlib

/-!
# Pomodoro timer: the `model.Update` state machine of `main.go`

A shallow embedding of the Bubble Tea model of `src/main.go` and of the two
methods of the `bubbles/progress` widget it calls.

Modelling conventions.

* `int64` fields are `Int` values; `timeElapsedSec++` wraps modulo `2^64`
  (`wrapInt64`).  Statements about arbitrary model states assume the two
  counters are `int64` values (`isInt64`).
* `float64` values are rationals: `float64(e) / float64(t)` is the exact
  quotient.  For the durations of this program (at most `2^53` seconds) the
  conversions are exact and the comparisons with `0.0` and `1.0` agree with
  the rational ones.
* `progress.Model` is represented by the fields `Percent` and `SetPercent`
  read and write: `targetPercent` and `tag`.  The animation fields
  (`percentShown`, `velocity`, the spring) are only touched by
  `progress.Model.Update` and `View` and are not represented.
* Line 75, `return m, m.progress.SetPercent(0.0)`, reads the variable `m` and
  calls a pointer-receiver method that writes `m.progress` in the same return
  statement.  The Go specification ("Order of evaluation") orders function
  calls among themselves only; whether the operand `m` is read before or
  after the call is not specified.  `EvalOrder` makes that choice explicit:
  a property of the program is one that holds for both orders.
-/

namespace Pomodoro

/-! ## Machine integers -/

/-- Smallest `int64`. -/
def minInt64 : Int := -(2 ^ 63)

/-- Largest `int64`. -/
def maxInt64 : Int := 2 ^ 63 - 1

/-- Two's-complement wrap-around of an integer into the `int64` range. -/
def wrapInt64 (x : Int) : Int := (x + 2 ^ 63) % 2 ^ 64 - 2 ^ 63

/-- The integer is an `int64` value. -/
def isInt64 (x : Int) : Prop := minInt64 ≤ x ∧ x ≤ maxInt64

instance (x : Int) : Decidable (isInt64 x) := by
  unfold isInt64; exact inferInstance

/-! ## Configuration constants (lines 15-19) -/

/-- One second as a `time.Duration` (nanoseconds). -/
def Second : Int := 1000000000

/-- One minute as a `time.Duration`. -/
def Minute : Int := 60 * Second

/-- Source constant `defaultTaskDuration = 25 * time.Minute`. -/
def defaultTaskDuration : Int := 25 * Minute

/-- Source constant `defaultBreakDuration = 5 * time.Minute`. -/
def defaultBreakDuration : Int := 5 * Minute

/-- The value of `int64(d.Seconds())` for a duration that is a whole number of
seconds: the number of seconds. -/
def secondsInt64 (d : Int) : Int := d / Second

/-! ## Commands and messages -/

/-- The commands `Update` returns. `frame` is the animation command returned by
`SetPercent`; `progressUpdate` is whatever `progress.Model.Update` returns
(nil or the next animation frame). -/
inductive Cmd where
  | nil : Cmd
  | Quit : Cmd
  | tick : Cmd
  | frame : Cmd
  | progressUpdate : Cmd
  | Batch : Cmd → Cmd → Cmd
  deriving DecidableEq, Repr

/-- The messages `Update` switches on; `other` is any message of another type. -/
inductive Msg where
  | KeyMsg (k : String) : Msg
  | tickMsg : Msg
  | FrameMsg : Msg
  | errMsg (e : String) : Msg
  | other : Msg
  deriving DecidableEq, Repr

/-- Source `tickCmd()`: a one-second timer that delivers a `tickMsg`. -/
def tickCmd : Cmd := Cmd.tick

/-- Keys of the binding `quitKeys` (line 38). -/
def quitKeys : List String := ["q", "esc", "ctrl+c"]

/-- Keys of the binding `startStopKeys` (line 43). -/
def startStopKeys : List String := ["s"]

/-- The library function `key.Matches` for one enabled binding. -/
def keyMatches (k : String) (binding : List String) : Bool := binding.contains k

/-! ## The progress widget -/

/-- The fields of `progress.Model` that `Percent` and `SetPercent` use. -/
structure ProgressModel where
  targetPercent : ℚ
  tag : Int
  deriving DecidableEq

/-- Library method `Percent`: the target percentage. -/
def ProgressModel.Percent (p : ProgressModel) : ℚ := p.targetPercent

/-- Library method `SetPercent`: clamps the argument to `[0, 1]`, stores it,
increments the tag and returns the animation command. -/
def ProgressModel.SetPercent (p : ProgressModel) (x : ℚ) : ProgressModel × Cmd :=
  ({ targetPercent := max 0 (min 1 x), tag := wrapInt64 (p.tag + 1) }, Cmd.frame)

/-- Library method `Update` on a `FrameMsg`: it advances the animation only and
leaves the target percentage and the tag as they are. -/
def ProgressModel.Update (p : ProgressModel) : ProgressModel × Cmd :=
  (p, Cmd.progressUpdate)

/-- Library constructor `progress.New`: the zero target percentage and tag. -/
def ProgressModel.New : ProgressModel := { targetPercent := 0, tag := 0 }

/-! ## The model (lines 27-50) -/

/-- Source `type model struct`. -/
structure model where
  progress : ProgressModel
  timeTotalSec : Int
  timeElapsedSec : Int
  isTimerRunning : Bool
  quitting : Bool
  err : Option String
  deriving DecidableEq

/-- Source `initialModel()`: every field but `progress` has its zero value. -/
def initialModel : model :=
  { progress := ProgressModel.New
    timeTotalSec := 0
    timeElapsedSec := 0
    isTimerRunning := false
    quitting := false
    err := none }

/-- The two orders in which line 75 may read `m` and call `SetPercent`. -/
inductive EvalOrder where
  /-- The operand `m` is copied into the result first, the call runs after. -/
  | operandFirst : EvalOrder
  /-- The call runs first, then `m` is copied into the result. -/
  | callFirst : EvalOrder
  deriving DecidableEq, Repr

/-- Source `model.Update` (lines 56-111), with the task duration in seconds
(`int64(defaultTaskDuration.Seconds())` in the source) as `taskSec`. -/
def model.UpdateWith (taskSec : Int) (o : EvalOrder) (m : model) : Msg → model × Cmd
  | Msg.KeyMsg k =>
    if keyMatches k quitKeys then
      ({ m with quitting := true }, Cmd.Quit)
    else if keyMatches k startStopKeys then
      let m1 : model :=
        if !m.isTimerRunning then
          { m with timeTotalSec := taskSec, timeElapsedSec := 0 }
        else m
      let m2 : model := { m1 with isTimerRunning := !m1.isTimerRunning }
      if m2.isTimerRunning then
        (m2, tickCmd)
      else
        let r := m2.progress.SetPercent 0
        match o with
        | EvalOrder.operandFirst => (m2, r.2)
        | EvalOrder.callFirst => ({ m2 with progress := r.1 }, r.2)
    else
      (m, Cmd.nil)
  | Msg.tickMsg =>
    if m.progress.Percent = 1 then
      (m, Cmd.Quit)
    else if !m.isTimerRunning then
      (m, Cmd.nil)
    else
      let m1 : model := { m with timeElapsedSec := wrapInt64 (m.timeElapsedSec + 1) }
      let r :=
        if m1.timeElapsedSec ≥ m1.timeTotalSec then
          m1.progress.SetPercent 1
        else
          m1.progress.SetPercent ((m1.timeElapsedSec : ℚ) / (m1.timeTotalSec : ℚ))
      ({ m1 with progress := r.1 }, Cmd.Batch tickCmd r.2)
  | Msg.FrameMsg =>
    let r := m.progress.Update
    ({ m with progress := r.1 }, r.2)
  | Msg.errMsg e =>
    ({ m with err := some e }, Cmd.nil)
  | Msg.other =>
    (m, Cmd.nil)

/-- Source `model.Update` with the configured task duration. -/
def model.Update (o : EvalOrder) (m : model) (msg : Msg) : model × Cmd :=
  m.UpdateWith (secondsInt64 defaultTaskDuration) o msg

/-- The start/stop key press. -/
def startStop : Msg := Msg.KeyMsg "s"

/-- The model after a sequence of messages, each handled by `UpdateWith`. -/
def runWith (taskSec : Int) (o : EvalOrder) (m : model) (msgs : List Msg) : model :=
  msgs.foldl (fun s msg => (s.UpdateWith taskSec o msg).1) m

/-- The model after a sequence of messages, each handled by `Update`. -/
def run (o : EvalOrder) (m : model) (msgs : List Msg) : model :=
  msgs.foldl (fun s msg => (s.Update o msg).1) m

/-- The sequence of `n` ticks. -/
def ticks (n : Nat) : List Msg := List.replicate n Msg.tickMsg

/-! ## Reference definitions, invariant and sample states -/

/-- ProgressMapper reference, in the words of the specification: `0.0` when
`total = 0`, otherwise `min(1.0, elapsed / total)`. -/
def fraction (elapsed total : Int) : ℚ :=
  if total = 0 then 0 else min 1 ((elapsed : ℚ) / (total : ℚ))

/-- ProgressFraction of the specification's data model: `elapsed / total` clamped to
`[0.0, 1.0]`, with the value `0.0` when `total = 0`. -/
def clampedFraction (elapsed total : Int) : ℚ :=
  if total = 0 then 0 else max 0 (min 1 ((elapsed : ℚ) / (total : ℚ)))

/-- A running model whose total is `0`. -/
def runningZeroTotal : model := { initialModel with isTimerRunning := true }

/-- A running model whose elapsed counter is the largest `int64`. -/
def runningAtMaxElapsed : model :=
  { initialModel with isTimerRunning := true, timeTotalSec := 1500, timeElapsedSec := maxInt64 }

/-- What holds in every state reachable from `initialModel`: the fraction is in `[0, 1]`,
the elapsed counter is between `0` and the total, the total is `1500` while running, and
a running session that is not complete has time left. -/
def Inv (m : model) : Prop :=
  0 ≤ m.progress.Percent ∧ m.progress.Percent ≤ 1 ∧
  0 ≤ m.timeElapsedSec ∧ m.timeElapsedSec ≤ m.timeTotalSec ∧
  m.timeTotalSec ≤ 1500 ∧
  (m.isTimerRunning = true → m.timeTotalSec = 1500) ∧
  (m.isTimerRunning = true → m.progress.Percent ≠ 1 → m.timeElapsedSec < m.timeTotalSec)

/-- A running model one second into a session, with fraction `1/1500`. -/
def runningOneSecond : model :=
  { progress := { targetPercent := 1 / 1500, tag := 1 }
    timeTotalSec := 1500
    timeElapsedSec := 1
    isTimerRunning := true
    quitting := false
    err := none }

/-- The argument the tick handler passes to `SetPercent` (lines 90-94): `1.0` when
`elapsed ≥ total`, otherwise `elapsed / total`. -/
def tickFraction (elapsed total : Int) : ℚ :=
  if elapsed ≥ total then 1 else (elapsed : ℚ) / (total : ℚ)

/-- The operands of the division on line 93 when `Update` evaluates it for this message
(the control flow of lines 78-93), and `none` when it does not. -/
def model.divisionOperands (m : model) : Msg → Option (Int × Int)
  | Msg.tickMsg =>
    if m.progress.Percent = 1 then none
    else if !m.isTimerRunning then none
    else
      let m1 : model := { m with timeElapsedSec := wrapInt64 (m.timeElapsedSec + 1) }
      if m1.timeElapsedSec ≥ m1.timeTotalSec then none
      else some (m1.timeElapsedSec, m1.timeTotalSec)
  | _ => none

/-- A running model with total `0` whose elapsed counter is the largest `int64`. -/
def runningZeroTotalMaxElapsed : model :=
  { initialModel with isTimerRunning := true, timeElapsedSec := maxInt64 }

/-- While the total is `0` the fraction is `0` and the timer is not running. -/
def InvZero (m : model) : Prop :=
  m.timeTotalSec = 0 → m.progress.Percent = 0 ∧ m.isTimerRunning = false

/-- The command is or contains `tea.Quit`. -/
def Cmd.quits : Cmd → Bool
  | Cmd.Quit => true
  | Cmd.Batch a b => a.quits || b.quits
  | _ => false

/-- Number of `tickCmd()` timers a command starts. -/
def Cmd.tickCount : Cmd → Nat
  | Cmd.tick => 1
  | Cmd.Batch a b => a.tickCount + b.tickCount
  | _ => 0

/-- The model together with the number of scheduled, undelivered ticks. -/
structure TimerSystem where
  m : model
  pending : Nat
  deriving DecidableEq

/-- The program at start: `initialModel` and no tick scheduled (`Init` returns nil). -/
def TimerSystem.start : TimerSystem := { m := initialModel, pending := 0 }

/-- Delivery of one message to `Update`. A tick is delivered only when one is
outstanding, and consumes it; the timers started by the returned command are added. -/
def TimerSystem.deliver (o : EvalOrder) (s : TimerSystem) (msg : Msg) : Option TimerSystem :=
  match msg with
  | Msg.tickMsg =>
    if s.pending = 0 then none
    else some { m := (s.m.Update o msg).1
                pending := s.pending - 1 + (s.m.Update o msg).2.tickCount }
  | _ => some { m := (s.m.Update o msg).1
                pending := s.pending + (s.m.Update o msg).2.tickCount }

/-- Delivery of a sequence of messages, `none` if a tick is delivered that was never
scheduled. -/
def TimerSystem.deliverAll (o : EvalOrder) (s : TimerSystem) : List Msg → Option TimerSystem
  | [] => some s
  | msg :: rest => (s.deliver o msg).bind (fun s1 => s1.deliverAll o rest)

/-! ## Basic facts -/

theorem secondsInt64_default : secondsInt64 defaultTaskDuration = 1500 := by
  decide

theorem wrapInt64_succ (e : Int) (h : isInt64 e) (hlt : e < maxInt64) :
    wrapInt64 (e + 1) = e + 1 := by
  unfold isInt64 minInt64 maxInt64 at *
  unfold wrapInt64
  obtain ⟨h1, h2⟩ := h
  have : (e + 1 + 2 ^ 63) % 2 ^ 64 = e + 1 + 2 ^ 63 := by
    apply Int.emod_eq_of_lt <;> omega
  omega

theorem run_append (o : EvalOrder) (m : model) (a b : List Msg) :
    run o m (a ++ b) = run o (run o m a) b := by
  simp [run, List.foldl_append]

theorem runWith_append (d : Int) (o : EvalOrder) (m : model) (a b : List Msg) :
    runWith d o m (a ++ b) = runWith d o (runWith d o m a) b := by
  simp [runWith, List.foldl_append]

theorem runWith_single (d : Int) (o : EvalOrder) (s : model) (msg : Msg) :
    runWith d o s [msg] = (s.UpdateWith d o msg).1 := rfl

theorem run_single (o : EvalOrder) (s : model) (msg : Msg) :
    run o s [msg] = (s.Update o msg).1 := rfl

theorem run_eq_runWith (o : EvalOrder) (m : model) (msgs : List Msg) :
    run o m msgs = runWith (secondsInt64 defaultTaskDuration) o m msgs := rfl

theorem ticks_succ (n : Nat) : ticks (n + 1) = ticks n ++ [Msg.tickMsg] := by
  simp [ticks, List.replicate_succ']

/-- One tick never lowers the elapsed counter of a state below `maxInt64`, raises it by
at most one, and leaves it an `int64`. -/
theorem tick_elapsed_bounds (d : Int) (o : EvalOrder) (s : model)
    (hwf : isInt64 s.timeElapsedSec) (hlt : s.timeElapsedSec < maxInt64) :
    s.timeElapsedSec ≤ (s.UpdateWith d o Msg.tickMsg).1.timeElapsedSec ∧
    (s.UpdateWith d o Msg.tickMsg).1.timeElapsedSec ≤ s.timeElapsedSec + 1 := by
  have hw := wrapInt64_succ s.timeElapsedSec hwf hlt
  unfold model.UpdateWith
  split_ifs <;> simp [hw]

/-- After `n` ticks the elapsed counter lies between its start value and that value
plus `n`, as long as that stays within `int64`. -/
theorem ticks_elapsed_bounds (d : Int) (o : EvalOrder) (m : model)
    (hwf : isInt64 m.timeElapsedSec) (n : Nat) (hn : m.timeElapsedSec + n ≤ maxInt64) :
    m.timeElapsedSec ≤ (runWith d o m (ticks n)).timeElapsedSec ∧
    (runWith d o m (ticks n)).timeElapsedSec ≤ m.timeElapsedSec + n := by
  induction n with
  | zero => simp [ticks, runWith]
  | succ k ih =>
    have hk : m.timeElapsedSec + (k : Int) ≤ maxInt64 := by push_cast at hn; omega
    obtain ⟨ih1, ih2⟩ := ih hk
    have hwf' : isInt64 (runWith d o m (ticks k)).timeElapsedSec := by
      unfold isInt64 at *; constructor <;> omega
    have hlt' : (runWith d o m (ticks k)).timeElapsedSec < maxInt64 := by
      push_cast at hn; omega
    have hb := tick_elapsed_bounds d o _ hwf' hlt'
    rw [ticks_succ, runWith_append, runWith_single]
    push_cast
    constructor <;> omega

/-! ## The start/stop key -/

/-- C1: for every model state that is not running, whatever its counters and
fraction, `Update` on the start/stop key returns a running model with
`timeTotalSec = 1500` and `timeElapsedSec = 0`, and the command is the tick. -/
theorem start_resets_counters (o : EvalOrder) (m : model)
    (h : m.isTimerRunning = false) :
    (m.Update o startStop).1.isTimerRunning = true ∧
    (m.Update o startStop).1.timeTotalSec = 1500 ∧
    (m.Update o startStop).1.timeElapsedSec = 0 ∧
    (m.Update o startStop).2 = tickCmd := by
  simp [model.Update, model.UpdateWith, startStop, keyMatches, quitKeys, startStopKeys, h,
    secondsInt64_default]

theorem start_resets_counters_witness :
    initialModel.isTimerRunning = false ∧
    ((initialModel.Update EvalOrder.callFirst startStop).1.isTimerRunning = true ∧
     (initialModel.Update EvalOrder.callFirst startStop).1.timeTotalSec = 1500 ∧
     (initialModel.Update EvalOrder.callFirst startStop).1.timeElapsedSec = 0 ∧
     (initialModel.Update EvalOrder.callFirst startStop).2 = tickCmd) :=
  ⟨rfl, start_resets_counters EvalOrder.callFirst initialModel rfl⟩

/-- The stop key, for either evaluation order of line 75: the model is stopped and the
command is the one `SetPercent` returns; the returned fraction is `0` when the call
runs before `m` is read and the old fraction when `m` is read first. -/
theorem stop_percent_by_order (m : model) (h : m.isTimerRunning = true) :
    (m.Update EvalOrder.callFirst startStop).1.progress.Percent = 0 ∧
    (m.Update EvalOrder.operandFirst startStop).1.progress.Percent = m.progress.Percent ∧
    (∀ o, (m.Update o startStop).1.isTimerRunning = false) ∧
    (∀ o, (m.Update o startStop).2 = Cmd.frame) := by
  refine ⟨?_, ?_, ?_, ?_⟩
  · simp [model.Update, model.UpdateWith, startStop, keyMatches, quitKeys, startStopKeys, h,
      ProgressModel.SetPercent, ProgressModel.Percent]
  · simp [model.Update, model.UpdateWith, startStop, keyMatches, quitKeys, startStopKeys, h]
  · intro o
    cases o <;>
      simp [model.Update, model.UpdateWith, startStop, keyMatches, quitKeys, startStopKeys, h]
  · intro o
    cases o <;>
      simp [model.Update, model.UpdateWith, startStop, keyMatches, quitKeys, startStopKeys, h,
        ProgressModel.SetPercent]

/-- C2 (the code at the failing input): when line 75 reads `m` before it calls
`SetPercent(0.0)`, the stop key returns a stopped model whose fraction is still
`1/1500`, not `0.0`. -/
theorem stop_returns_stale_fraction :
    (runningOneSecond.Update EvalOrder.operandFirst startStop).1.isTimerRunning = false ∧
    (runningOneSecond.Update EvalOrder.operandFirst startStop).1.progress.Percent = 1 / 1500 ∧
    (runningOneSecond.Update EvalOrder.operandFirst startStop).1.progress.Percent ≠ 0 := by
  have h := stop_percent_by_order runningOneSecond rfl
  refine ⟨h.2.2.1 _, ?_, ?_⟩
  · rw [h.2.1]; rfl
  · rw [h.2.1]; simp [runningOneSecond, ProgressModel.Percent]

/-! ## The tick -/

/-- C3: for every running model state whose fraction is not `1.0` and whose elapsed
counter is below the `int64` maximum, a tick adds exactly one to `timeElapsedSec` and
leaves `timeTotalSec` and `isTimerRunning` as they are; and along any sequence of ticks
that stays within `int64` the elapsed counter is non-decreasing. -/
theorem tick_increments_elapsed (o : EvalOrder) (m : model)
    (hwf : isInt64 m.timeElapsedSec) (hrun : m.isTimerRunning = true)
    (hne : m.progress.Percent ≠ 1) (hlt : m.timeElapsedSec < maxInt64) :
    ((m.Update o Msg.tickMsg).1.timeElapsedSec = m.timeElapsedSec + 1 ∧
     (m.Update o Msg.tickMsg).1.timeTotalSec = m.timeTotalSec ∧
     (m.Update o Msg.tickMsg).1.isTimerRunning = m.isTimerRunning) ∧
    (∀ n : Nat, m.timeElapsedSec + n < maxInt64 →
      (run o m (ticks n)).timeElapsedSec ≤ (run o m (ticks (n + 1))).timeElapsedSec) := by
  constructor
  · have hw := wrapInt64_succ m.timeElapsedSec hwf hlt
    simp [model.Update, model.UpdateWith, hrun, hne, hw]
  · intro n hn
    have hb := ticks_elapsed_bounds (secondsInt64 defaultTaskDuration) o m hwf n (by omega)
    have hwf' : isInt64 (run o m (ticks n)).timeElapsedSec := by
      rw [run_eq_runWith]; unfold isInt64 at *; constructor <;> omega
    have hs := tick_elapsed_bounds (secondsInt64 defaultTaskDuration) o
      (run o m (ticks n)) hwf' (by rw [run_eq_runWith]; omega)
    rw [ticks_succ, run_append, run_single]
    exact hs.1

/-- C4: a tick on a model that is not running, or whose fraction is `1.0`, returns the
model unchanged in every field. -/
theorem tick_noop (o : EvalOrder) (m : model)
    (h : m.isTimerRunning = false ∨ m.progress.Percent = 1) :
    (m.Update o Msg.tickMsg).1 = m := by
  unfold model.Update model.UpdateWith
  rcases h with h | h
  · split_ifs <;> simp_all
  · simp [h]

theorem tick_noop_witness :
    (initialModel.isTimerRunning = false ∨ initialModel.progress.Percent = 1) ∧
    (initialModel.Update EvalOrder.operandFirst Msg.tickMsg).1 = initialModel :=
  ⟨Or.inl rfl, tick_noop EvalOrder.operandFirst initialModel (Or.inl rfl)⟩

/-- The tick on a running, incomplete model whose elapsed counter does not overflow,
written out: the counter is incremented and the fraction is set from the new counter. -/
theorem tick_running_step (d : Int) (o : EvalOrder) (s : model)
    (hwf : isInt64 s.timeElapsedSec) (hrun : s.isTimerRunning = true)
    (hne : s.progress.Percent ≠ 1) (hlt : s.timeElapsedSec < maxInt64) :
    (s.UpdateWith d o Msg.tickMsg).1 =
      { s with
        timeElapsedSec := s.timeElapsedSec + 1
        progress :=
          (s.progress.SetPercent
            (if s.timeElapsedSec + 1 ≥ s.timeTotalSec then 1
             else ((s.timeElapsedSec + 1 : Int) : ℚ) / (s.timeTotalSec : ℚ))).1 } := by
  have hw := wrapInt64_succ s.timeElapsedSec hwf hlt
  simp only [model.UpdateWith, hne, hrun, hw, ↓reduceIte, Bool.not_true, Bool.false_eq_true]
  split_ifs <;> simp

theorem clamp_of_mem (x : ℚ) (h0 : 0 ≤ x) (h1 : x ≤ 1) : max 0 (min 1 x) = x := by
  rw [min_eq_right h1, max_eq_right h0]

/-- State of a session `k` ticks after the start key, for a task duration `d`. -/
theorem session_state (d : Int) (o : EvalOrder) (hd : 0 < d) (hd53 : d ≤ 2 ^ 53) (k : Nat) :
    (runWith d o initialModel (startStop :: ticks k)).isTimerRunning = true ∧
    (runWith d o initialModel (startStop :: ticks k)).timeTotalSec = d ∧
    (runWith d o initialModel (startStop :: ticks k)).timeElapsedSec = min (k : Int) d ∧
    (runWith d o initialModel (startStop :: ticks k)).progress.Percent
      = ((min (k : Int) d : Int) : ℚ) / (d : ℚ) := by
  have hdq : (0 : ℚ) < (d : ℚ) := by exact_mod_cast hd
  induction k with
  | zero =>
    have h0 : min ((0 : Nat) : Int) d = 0 := by simp; omega
    rw [h0]
    simp [ticks, runWith, model.UpdateWith, startStop, keyMatches, quitKeys, startStopKeys,
      initialModel, ProgressModel.New, ProgressModel.Percent]
  | succ k ih =>
    obtain ⟨hrun, htot, hel, hp⟩ := ih
    have hsplit : startStop :: ticks (k + 1) = (startStop :: ticks k) ++ [Msg.tickMsg] := by
      rw [ticks_succ]; rfl
    rw [hsplit, runWith_append, runWith_single]
    generalize runWith d o initialModel (startStop :: ticks k) = s at hrun htot hel hp
    by_cases hk : d ≤ (k : Int)
    · have hmin : min (k : Int) d = d := min_eq_right hk
      have hmin' : min ((k + 1 : Nat) : Int) d = d := by
        apply min_eq_right; push_cast; omega
      have hp1 : s.progress.Percent = 1 := by
        rw [hp, hmin]; exact div_self (ne_of_gt hdq)
      have hs : (s.UpdateWith d o Msg.tickMsg).1 = s := by
        simp [model.UpdateWith, hp1]
      rw [hs, hmin']
      rw [hmin] at hel
      exact ⟨hrun, htot, hel, hp1.trans (div_self (ne_of_gt hdq)).symm⟩
    · have hk' : (k : Int) < d := by omega
      have hmin : min (k : Int) d = k := min_eq_left (le_of_lt hk')
      have hmin' : min ((k + 1 : Nat) : Int) d = (k : Int) + 1 := by
        push_cast; apply min_eq_left; omega
      rw [hmin] at hel hp
      have hne : s.progress.Percent ≠ 1 := by
        rw [hp, Ne, div_eq_one_iff_eq (ne_of_gt hdq)]
        exact_mod_cast (ne_of_lt hk')
      have hwf : isInt64 s.timeElapsedSec := by
        rw [hel]; unfold isInt64 minInt64 maxInt64; constructor <;> omega
      have hlt : s.timeElapsedSec < maxInt64 := by
        rw [hel]; unfold maxInt64; omega
      rw [tick_running_step d o s hwf hrun hne hlt, hmin']
      refine ⟨hrun, htot, by simp [hel], ?_⟩
      simp only [ProgressModel.Percent, ProgressModel.SetPercent, hel, htot]
      by_cases hc : (k : Int) + 1 ≥ d
      · have hkd : (k : Int) + 1 = d := by omega
        rw [if_pos hc, hkd, div_self (ne_of_gt hdq)]
        simp
      · rw [if_neg hc]
        apply clamp_of_mem
        · apply div_nonneg _ (le_of_lt hdq)
          exact_mod_cast (by omega : (0 : Int) ≤ (k : Int) + 1)
        · rw [div_le_one hdq]
          exact_mod_cast (by omega : (k : Int) + 1 ≤ d)

/-! ## Sessions -/

/-- C5: for a configured duration `d` (in seconds, `0 < d`, exactly representable as a
`float64`), the start key followed by `k` ticks from `initialModel` yields
`timeElapsedSec = min k d` and fraction `min k d / d`; the fraction is `1.0` exactly
when `k ≥ d`, and once `k ≥ d` one more tick leaves the model unchanged. -/
theorem session_after_ticks (o : EvalOrder) (d : Int) (hd : 0 < d) (hd53 : d ≤ 2 ^ 53)
    (k : Nat) :
    (runWith d o initialModel (startStop :: ticks k)).timeElapsedSec = min (k : Int) d ∧
    (runWith d o initialModel (startStop :: ticks k)).progress.Percent
      = ((min (k : Int) d : Int) : ℚ) / (d : ℚ) ∧
    ((runWith d o initialModel (startStop :: ticks k)).progress.Percent = 1 ↔ d ≤ (k : Int)) ∧
    (d ≤ (k : Int) →
      runWith d o initialModel (startStop :: ticks (k + 1))
        = runWith d o initialModel (startStop :: ticks k)) := by
  have hdq : (0 : ℚ) < (d : ℚ) := by exact_mod_cast hd
  obtain ⟨_, _, hel, hp⟩ := session_state d o hd hd53 k
  refine ⟨hel, hp, ?_, ?_⟩
  · rw [hp, div_eq_one_iff_eq (ne_of_gt hdq)]
    constructor
    · intro h
      have h' : min (k : Int) d = d := by exact_mod_cast h
      exact h' ▸ min_le_left _ _
    · intro h
      rw [min_eq_right h]
  · intro h
    have hp1 : (runWith d o initialModel (startStop :: ticks k)).progress.Percent = 1 := by
      rw [hp, min_eq_right h]; exact div_self (ne_of_gt hdq)
    have hsplit : startStop :: ticks (k + 1) = (startStop :: ticks k) ++ [Msg.tickMsg] := by
      rw [ticks_succ]; rfl
    rw [hsplit, runWith_append, runWith_single]
    simp [model.UpdateWith, hp1]

/-- The same for the configured duration of the program, `1500` seconds. -/
theorem session_default_duration (o : EvalOrder) (k : Nat) :
    (run o initialModel (startStop :: ticks k)).isTimerRunning = true ∧
    (run o initialModel (startStop :: ticks k)).timeTotalSec = 1500 ∧
    (run o initialModel (startStop :: ticks k)).timeElapsedSec = min (k : Int) 1500 ∧
    (run o initialModel (startStop :: ticks k)).progress.Percent
      = ((min (k : Int) 1500 : Int) : ℚ) / 1500 := by
  have h := session_state 1500 o (by norm_num) (by norm_num) k
  rw [run_eq_runWith, secondsInt64_default]
  exact_mod_cast h

/-- Stop, start and one tick from a running model: the counters restart, and the tick
counts unless the stop left the fraction at `1.0`. -/
theorem restart_then_tick (o : EvalOrder) (s : model) (hrun : s.isTimerRunning = true) :
    (run o s [startStop, startStop, Msg.tickMsg]).timeTotalSec = 1500 ∧
    (run o s [startStop, startStop, Msg.tickMsg]).timeElapsedSec
      = if o = EvalOrder.operandFirst ∧ s.progress.Percent = 1 then 0 else 1 := by
  have hw : wrapInt64 1 = 1 := by decide
  cases o
  · by_cases hp : s.progress.Percent = 1
    · simp [run, model.Update, model.UpdateWith, startStop, keyMatches, quitKeys,
        startStopKeys, hrun, hp, secondsInt64_default]
    · simp [run, model.Update, model.UpdateWith, startStop, keyMatches, quitKeys,
        startStopKeys, hrun, hp, secondsInt64_default, hw]
  · simp [run, model.Update, model.UpdateWith, startStop, keyMatches, quitKeys,
      startStopKeys, hrun, secondsInt64_default, hw, ProgressModel.SetPercent,
      ProgressModel.Percent]

/-- Start, `j` ticks, stop, start, one tick: the elapsed counter is `1` and the total is
`1500` whenever the session was not yet complete at the stop (`j < 1500`), for either
evaluation order, and for every `j` when the stop resets the fraction. -/
theorem restart_discards_progress (o : EvalOrder) (j : Nat)
    (h : (j : Int) < 1500 ∨ o = EvalOrder.callFirst) :
    (run o initialModel (startStop :: ticks j ++ [startStop, startStop, Msg.tickMsg])).timeElapsedSec
      = 1 ∧
    (run o initialModel (startStop :: ticks j ++ [startStop, startStop, Msg.tickMsg])).timeTotalSec
      = 1500 := by
  obtain ⟨hrun, _, _, hp⟩ := session_default_duration o j
  have hr := restart_then_tick o _ hrun
  rw [run_append]
  refine ⟨?_, hr.1⟩
  rw [hr.2, if_neg]
  rintro ⟨ho, hp1⟩
  rcases h with h | h
  · rw [hp, min_eq_left (le_of_lt h)] at hp1
    rw [div_eq_one_iff_eq (by norm_num)] at hp1
    have : (j : Int) = 1500 := by exact_mod_cast hp1
    omega
  · rw [h] at ho; cases ho

/-- When line 75 reads `m` before the call, a restart after a completed session
(`j ≥ 1500` ticks) leaves the fraction at `1.0` and the next tick does not count. -/
theorem restart_after_completion (j : Nat) (h : (1500 : Int) ≤ j) :
    (run EvalOrder.operandFirst initialModel
      (startStop :: ticks j ++ [startStop, startStop, Msg.tickMsg])).timeElapsedSec = 0 ∧
    (run EvalOrder.operandFirst initialModel
      (startStop :: ticks j ++ [startStop, startStop, Msg.tickMsg])).progress.Percent = 1 := by
  obtain ⟨hrun, _, _, hp⟩ := session_default_duration EvalOrder.operandFirst j
  have hp1 : (run EvalOrder.operandFirst initialModel
      (startStop :: ticks j)).progress.Percent = 1 := by
    rw [hp, min_eq_right h]; norm_num
  rw [run_append]
  generalize run EvalOrder.operandFirst initialModel (startStop :: ticks j) = s at hrun hp1
  simp [run, model.Update, model.UpdateWith, startStop, keyMatches, quitKeys,
    startStopKeys, hrun, hp1, secondsInt64_default]

/-- C6 (the code at the failing input): when line 75 reads `m` before it calls
`SetPercent(0.0)`, the sequence start, 1500 ticks, stop, start, tick ends with
`timeElapsedSec = 0`: the fraction is still `1.0` after the restart and the tick does
not count. -/
theorem restart_after_completion_stale :
    (run EvalOrder.operandFirst initialModel
      (startStop :: ticks 1500 ++ [startStop, startStop, Msg.tickMsg])).timeElapsedSec = 0 ∧
    (run EvalOrder.operandFirst initialModel
      (startStop :: ticks 1500 ++ [startStop, startStop, Msg.tickMsg])).progress.Percent = 1 :=
  restart_after_completion 1500 (by norm_num)

/-! ## Invariant of the reachable states -/

theorem setPercent_nonneg (p : ProgressModel) (x : ℚ) : 0 ≤ (p.SetPercent x).1.Percent := by
  simp [ProgressModel.SetPercent, ProgressModel.Percent]

theorem setPercent_le_one (p : ProgressModel) (x : ℚ) : (p.SetPercent x).1.Percent ≤ 1 := by
  simp [ProgressModel.SetPercent, ProgressModel.Percent]

theorem Inv_initialModel : Inv initialModel := by
  simp [Inv, initialModel, ProgressModel.New, ProgressModel.Percent]

theorem Inv_step (o : EvalOrder) (m : model) (msg : Msg) (h : Inv m) :
    Inv (m.Update o msg).1 := by
  obtain ⟨h1, h2, h3, h4, h5, h6, h7⟩ := h
  cases msg with
  | KeyMsg k =>
    by_cases hq : keyMatches k quitKeys = true
    · simp only [model.Update, model.UpdateWith, hq, if_true]
      exact ⟨h1, h2, h3, h4, h5, h6, h7⟩
    · by_cases hs : keyMatches k startStopKeys = true
      · cases hr : m.isTimerRunning
        · simp [Inv, model.Update, model.UpdateWith, hq, hs, hr, secondsInt64_default, h1, h2]
        · have ht := h6 hr
          cases o
          · simp [Inv, model.Update, model.UpdateWith, hq, hs, hr, h1, h2, h3, h4, h5]
          · simp only [model.Update, model.UpdateWith, hq, hs, hr, if_true, if_false,
              Bool.not_true, Bool.false_eq_true]
            exact ⟨setPercent_nonneg _ _, setPercent_le_one _ _, h3, h4, h5,
              by simp, by simp⟩
      · simp only [model.Update, model.UpdateWith, hq, hs, if_false, Bool.false_eq_true]
        exact ⟨h1, h2, h3, h4, h5, h6, h7⟩
  | tickMsg =>
    by_cases hp : m.progress.Percent = 1
    · simp only [model.Update, model.UpdateWith, hp, if_true]
      exact ⟨h1, h2, h3, h4, h5, h6, h7⟩
    · cases hr : m.isTimerRunning
      · simp only [model.Update, model.UpdateWith, hp, hr, if_true, if_false, Bool.not_false]
        exact ⟨h1, h2, h3, h4, h5, h6, h7⟩
      · have ht := h6 hr
        have hlt := h7 hr hp
        have hwf : isInt64 m.timeElapsedSec := by
          unfold isInt64 minInt64 maxInt64; constructor <;> omega
        have hmax : m.timeElapsedSec < maxInt64 := by unfold maxInt64; omega
        rw [model.Update, tick_running_step _ o m hwf hr hp hmax]
        refine ⟨setPercent_nonneg _ _, setPercent_le_one _ _, ?_, ?_, h5, ?_, ?_⟩
        · show 0 ≤ m.timeElapsedSec + 1
          omega
        · show m.timeElapsedSec + 1 ≤ m.timeTotalSec
          omega
        · intro _; exact ht
        · intro _ hne
          show m.timeElapsedSec + 1 < m.timeTotalSec
          by_contra hge
          apply hne
          have hge' : m.timeElapsedSec + 1 ≥ m.timeTotalSec := by omega
          simp [ProgressModel.SetPercent, ProgressModel.Percent, hge']
  | FrameMsg =>
    simp only [model.Update, model.UpdateWith, ProgressModel.Update]
    exact ⟨h1, h2, h3, h4, h5, h6, h7⟩
  | errMsg e =>
    simp only [model.Update, model.UpdateWith]
    exact ⟨h1, h2, h3, h4, h5, h6, h7⟩
  | other =>
    simp only [model.Update, model.UpdateWith]
    exact ⟨h1, h2, h3, h4, h5, h6, h7⟩

theorem Inv_run (o : EvalOrder) (msgs : List Msg) (m : model) (h : Inv m) :
    Inv (run o m msgs) := by
  induction msgs generalizing m with
  | nil => exact h
  | cons msg rest ih => exact ih _ (Inv_step o m msg h)

/-- C7: in every state reachable from `initialModel` by a finite sequence of messages,
the progress fraction lies in `[0, 1]`. -/
theorem fraction_in_unit_interval (o : EvalOrder) (msgs : List Msg) :
    0 ≤ (run o initialModel msgs).progress.Percent ∧
    (run o initialModel msgs).progress.Percent ≤ 1 := by
  have h := Inv_run o msgs initialModel Inv_initialModel
  exact ⟨h.1, h.2.1⟩

/-- C10: in every state reachable from `initialModel` by a finite sequence of messages,
`0 ≤ timeElapsedSec ≤ timeTotalSec`. -/
theorem elapsed_within_total (o : EvalOrder) (msgs : List Msg) :
    0 ≤ (run o initialModel msgs).timeElapsedSec ∧
    (run o initialModel msgs).timeElapsedSec ≤ (run o initialModel msgs).timeTotalSec := by
  have h := Inv_run o msgs initialModel Inv_initialModel
  exact ⟨h.2.2.1, h.2.2.2.1⟩

/-! ## The fraction a tick sets -/

/-- The fraction and the counters after a tick on a running, incomplete model with a
positive total and no overflow. -/
theorem tick_percent_value (o : EvalOrder) (m : model)
    (hwf : isInt64 m.timeElapsedSec) (hrun : m.isTimerRunning = true)
    (hne : m.progress.Percent ≠ 1) (hlt : m.timeElapsedSec < maxInt64)
    (ht : 0 < m.timeTotalSec) :
    (m.Update o Msg.tickMsg).1.timeElapsedSec = m.timeElapsedSec + 1 ∧
    (m.Update o Msg.tickMsg).1.timeTotalSec = m.timeTotalSec ∧
    (m.Update o Msg.tickMsg).1.progress.Percent
      = max 0 (min 1 (((m.timeElapsedSec + 1 : Int) : ℚ) / (m.timeTotalSec : ℚ))) := by
  have htq : (0 : ℚ) < (m.timeTotalSec : ℚ) := by exact_mod_cast ht
  rw [model.Update, tick_running_step _ o m hwf hrun hne hlt]
  refine ⟨rfl, rfl, ?_⟩
  simp only [ProgressModel.SetPercent, ProgressModel.Percent]
  by_cases hc : m.timeElapsedSec + 1 ≥ m.timeTotalSec
  · rw [if_pos hc]
    have hge : (1 : ℚ) ≤ ((m.timeElapsedSec + 1 : Int) : ℚ) / (m.timeTotalSec : ℚ) := by
      rw [one_le_div htq]; exact_mod_cast hc
    rw [min_eq_left hge, min_self]
  · rw [if_neg hc]

/-- C8, as the claim states it, fails: on a running model with `timeTotalSec = 0` the
tick sets the fraction to `1.0` where the reference gives `0.0`, and on a running model
with `timeElapsedSec` at the `int64` maximum the counter wraps to a negative value and the
fraction is `0.0` where the reference gives a negative number. -/
theorem tick_fraction_differs_from_reference :
    (runningZeroTotal.isTimerRunning = true ∧ runningZeroTotal.progress.Percent ≠ 1 ∧
      0 ≤ runningZeroTotal.timeElapsedSec ∧ 0 ≤ runningZeroTotal.timeTotalSec ∧
      (runningZeroTotal.Update EvalOrder.callFirst Msg.tickMsg).1.progress.Percent = 1 ∧
      fraction (runningZeroTotal.Update EvalOrder.callFirst Msg.tickMsg).1.timeElapsedSec
        (runningZeroTotal.Update EvalOrder.callFirst Msg.tickMsg).1.timeTotalSec = 0) ∧
    (runningAtMaxElapsed.isTimerRunning = true ∧ runningAtMaxElapsed.progress.Percent ≠ 1 ∧
      0 ≤ runningAtMaxElapsed.timeElapsedSec ∧ 0 ≤ runningAtMaxElapsed.timeTotalSec ∧
      (runningAtMaxElapsed.Update EvalOrder.callFirst Msg.tickMsg).1.progress.Percent = 0 ∧
      fraction (runningAtMaxElapsed.Update EvalOrder.callFirst Msg.tickMsg).1.timeElapsedSec
        (runningAtMaxElapsed.Update EvalOrder.callFirst Msg.tickMsg).1.timeTotalSec < 0) := by
  have hw1 : wrapInt64 1 = 1 := by decide
  have hw2 : wrapInt64 (maxInt64 + 1) = minInt64 := by decide
  constructor
  · simp [runningZeroTotal, initialModel, ProgressModel.New, ProgressModel.Percent,
      ProgressModel.SetPercent, model.Update, model.UpdateWith, fraction, hw1]
  · simp only [runningAtMaxElapsed, initialModel, ProgressModel.New, ProgressModel.Percent,
      ProgressModel.SetPercent, model.Update, model.UpdateWith, fraction, hw2]
    norm_num [minInt64, maxInt64]

/-- C8, amended: for every running model state whose fraction is not `1.0`, with
`0 ≤ timeElapsedSec < maxInt64` and `timeTotalSec > 0`, the fraction after a tick is
`fraction e t` for the incremented elapsed counter `e` and the total `t`; it is `1.0`
whenever `e ≥ t`. -/
theorem tick_fraction_matches_reference (o : EvalOrder) (m : model)
    (hrun : m.isTimerRunning = true) (hne : m.progress.Percent ≠ 1)
    (h0 : 0 ≤ m.timeElapsedSec) (hlt : m.timeElapsedSec < maxInt64)
    (ht : 0 < m.timeTotalSec) :
    (m.Update o Msg.tickMsg).1.progress.Percent
      = fraction (m.Update o Msg.tickMsg).1.timeElapsedSec
          (m.Update o Msg.tickMsg).1.timeTotalSec ∧
    ((m.Update o Msg.tickMsg).1.timeElapsedSec ≥ (m.Update o Msg.tickMsg).1.timeTotalSec →
      (m.Update o Msg.tickMsg).1.progress.Percent = 1) := by
  have hwf : isInt64 m.timeElapsedSec := by
    unfold isInt64 minInt64; unfold maxInt64 at hlt ⊢; constructor <;> omega
  have htq : (0 : ℚ) < (m.timeTotalSec : ℚ) := by exact_mod_cast ht
  obtain ⟨he, htot, hp⟩ := tick_percent_value o m hwf hrun hne hlt ht
  have hx : (0 : ℚ) ≤ ((m.timeElapsedSec + 1 : Int) : ℚ) / (m.timeTotalSec : ℚ) := by
    apply div_nonneg _ (le_of_lt htq)
    exact_mod_cast (by omega : (0 : Int) ≤ m.timeElapsedSec + 1)
  rw [he, htot, hp, max_eq_right (le_min zero_le_one hx)]
  constructor
  · simp [fraction, ne_of_gt ht]
  · intro hge
    apply min_eq_left
    rw [one_le_div htq]; exact_mod_cast hge

theorem tick_fraction_matches_reference_witness :
    (runningOneSecond.isTimerRunning = true ∧ runningOneSecond.progress.Percent ≠ 1 ∧
      0 ≤ runningOneSecond.timeElapsedSec ∧ runningOneSecond.timeElapsedSec < maxInt64 ∧
      0 < runningOneSecond.timeTotalSec) ∧
    ((runningOneSecond.Update EvalOrder.callFirst Msg.tickMsg).1.progress.Percent
      = fraction (runningOneSecond.Update EvalOrder.callFirst Msg.tickMsg).1.timeElapsedSec
          (runningOneSecond.Update EvalOrder.callFirst Msg.tickMsg).1.timeTotalSec ∧
    ((runningOneSecond.Update EvalOrder.callFirst Msg.tickMsg).1.timeElapsedSec
        ≥ (runningOneSecond.Update EvalOrder.callFirst Msg.tickMsg).1.timeTotalSec →
      (runningOneSecond.Update EvalOrder.callFirst Msg.tickMsg).1.progress.Percent = 1)) :=
  ⟨⟨rfl, by simp [runningOneSecond, ProgressModel.Percent], by decide, by decide, by decide⟩,
    tick_fraction_matches_reference EvalOrder.callFirst runningOneSecond rfl
      (by simp [runningOneSecond, ProgressModel.Percent]) (by decide) (by decide) (by decide)⟩

/-- The model `runningOneSecond` is the state after the start key and one tick. -/
theorem runningOneSecond_reachable (o : EvalOrder) :
    run o initialModel [startStop, Msg.tickMsg] = runningOneSecond := by
  have hw1 : wrapInt64 1 = 1 := by decide
  simp [run, model.Update, model.UpdateWith, startStop, keyMatches, quitKeys, startStopKeys,
    initialModel, ProgressModel.New, ProgressModel.Percent, ProgressModel.SetPercent,
    secondsInt64_default, runningOneSecond, hw1]
  norm_num

theorem tick_increments_elapsed_witness :
    (isInt64 runningOneSecond.timeElapsedSec ∧ runningOneSecond.isTimerRunning = true ∧
      runningOneSecond.progress.Percent ≠ 1 ∧ runningOneSecond.timeElapsedSec < maxInt64) ∧
    (((runningOneSecond.Update EvalOrder.callFirst Msg.tickMsg).1.timeElapsedSec
        = runningOneSecond.timeElapsedSec + 1 ∧
      (runningOneSecond.Update EvalOrder.callFirst Msg.tickMsg).1.timeTotalSec
        = runningOneSecond.timeTotalSec ∧
      (runningOneSecond.Update EvalOrder.callFirst Msg.tickMsg).1.isTimerRunning
        = runningOneSecond.isTimerRunning) ∧
     (∀ n : Nat, runningOneSecond.timeElapsedSec + n < maxInt64 →
      (run EvalOrder.callFirst runningOneSecond (ticks n)).timeElapsedSec
        ≤ (run EvalOrder.callFirst runningOneSecond (ticks (n + 1))).timeElapsedSec)) :=
  ⟨⟨by decide, rfl, by simp [runningOneSecond, ProgressModel.Percent], by decide⟩,
    tick_increments_elapsed EvalOrder.callFirst runningOneSecond (by decide) rfl
      (by simp [runningOneSecond, ProgressModel.Percent]) (by decide)⟩

theorem session_after_ticks_witness :
    ((0 : Int) < 5 ∧ (5 : Int) ≤ 2 ^ 53) ∧
    ((runWith 5 EvalOrder.callFirst initialModel (startStop :: ticks 5)).timeElapsedSec
        = min ((5 : Nat) : Int) 5 ∧
     (runWith 5 EvalOrder.callFirst initialModel (startStop :: ticks 5)).progress.Percent
        = ((min ((5 : Nat) : Int) 5 : Int) : ℚ) / ((5 : Int) : ℚ) ∧
     ((runWith 5 EvalOrder.callFirst initialModel (startStop :: ticks 5)).progress.Percent = 1
        ↔ (5 : Int) ≤ ((5 : Nat) : Int)) ∧
     ((5 : Int) ≤ ((5 : Nat) : Int) →
      runWith 5 EvalOrder.callFirst initialModel (startStop :: ticks (5 + 1))
        = runWith 5 EvalOrder.callFirst initialModel (startStop :: ticks 5))) :=
  ⟨⟨by decide, by decide⟩,
    session_after_ticks EvalOrder.callFirst 5 (by decide) (by decide) 5⟩

/-! ## The stored fraction and the counters -/

/-- C9, as the claim states it, fails for either evaluation order of line 75. When the
stop resets the fraction, after start, tick, stop the fraction is `0` while the counters
give `1/1500`; when the stop leaves it, after start, tick, stop, start the fraction is
`1/1500` while the counters give `0`. -/
theorem fraction_not_derived_from_counters :
    ((run EvalOrder.callFirst initialModel [startStop, Msg.tickMsg, startStop]).progress.Percent
      ≠ clampedFraction
          (run EvalOrder.callFirst initialModel [startStop, Msg.tickMsg, startStop]).timeElapsedSec
          (run EvalOrder.callFirst initialModel [startStop, Msg.tickMsg, startStop]).timeTotalSec) ∧
    ((run EvalOrder.operandFirst initialModel
        [startStop, Msg.tickMsg, startStop, startStop]).progress.Percent
      ≠ clampedFraction
          (run EvalOrder.operandFirst initialModel
            [startStop, Msg.tickMsg, startStop, startStop]).timeElapsedSec
          (run EvalOrder.operandFirst initialModel
            [startStop, Msg.tickMsg, startStop, startStop]).timeTotalSec) := by
  have h1 : ∀ o, run o initialModel [startStop, Msg.tickMsg, startStop]
      = run o runningOneSecond [startStop] := by
    intro o
    rw [← runningOneSecond_reachable o, ← run_append]; rfl
  have h2 : ∀ o, run o initialModel [startStop, Msg.tickMsg, startStop, startStop]
      = run o runningOneSecond [startStop, startStop] := by
    intro o
    rw [← runningOneSecond_reachable o, ← run_append]; rfl
  rw [h1, h2]
  constructor
  · simp [run, model.Update, model.UpdateWith, startStop, keyMatches, quitKeys,
      startStopKeys, runningOneSecond, ProgressModel.Percent, ProgressModel.SetPercent,
      clampedFraction]
    norm_num
  · simp [run, model.Update, model.UpdateWith, startStop, keyMatches, quitKeys,
      startStopKeys, runningOneSecond, ProgressModel.Percent, ProgressModel.SetPercent,
      clampedFraction, secondsInt64_default]

/-- C9, amended: in every state reachable from `initialModel`, a tick that finds the
timer running and the fraction different from `1.0` leaves a model whose fraction is
`timeElapsedSec / timeTotalSec` clamped to `[0, 1]`. -/
theorem fraction_derived_after_counting_tick (o : EvalOrder) (msgs : List Msg)
    (hrun : (run o initialModel msgs).isTimerRunning = true)
    (hne : (run o initialModel msgs).progress.Percent ≠ 1) :
    (run o initialModel (msgs ++ [Msg.tickMsg])).progress.Percent
      = clampedFraction (run o initialModel (msgs ++ [Msg.tickMsg])).timeElapsedSec
          (run o initialModel (msgs ++ [Msg.tickMsg])).timeTotalSec := by
  obtain ⟨_, _, h3, _, h5, h6, h7⟩ := Inv_run o msgs initialModel Inv_initialModel
  have ht := h6 hrun
  have hlt := h7 hrun hne
  rw [run_append, run_single]
  generalize run o initialModel msgs = s at hrun hne h3 h5 ht hlt
  have hwf : isInt64 s.timeElapsedSec := by
    unfold isInt64 minInt64 maxInt64; constructor <;> omega
  have hmax : s.timeElapsedSec < maxInt64 := by unfold maxInt64; omega
  obtain ⟨he, htot, hp⟩ := tick_percent_value o s hwf hrun hne hmax (by omega)
  rw [he, htot, hp]
  simp [clampedFraction, ht]

theorem fraction_derived_after_counting_tick_witness :
    ((run EvalOrder.operandFirst initialModel [startStop]).isTimerRunning = true ∧
     (run EvalOrder.operandFirst initialModel [startStop]).progress.Percent ≠ 1) ∧
    (run EvalOrder.operandFirst initialModel ([startStop] ++ [Msg.tickMsg])).progress.Percent
      = clampedFraction
          (run EvalOrder.operandFirst initialModel ([startStop] ++ [Msg.tickMsg])).timeElapsedSec
          (run EvalOrder.operandFirst initialModel ([startStop] ++ [Msg.tickMsg])).timeTotalSec :=
  ⟨⟨by simp [run, model.Update, model.UpdateWith, startStop, keyMatches, quitKeys,
        startStopKeys, initialModel],
    by simp [run, model.Update, model.UpdateWith, startStop, keyMatches, quitKeys,
        startStopKeys, initialModel, ProgressModel.New, ProgressModel.Percent]⟩,
    fraction_derived_after_counting_tick EvalOrder.operandFirst [startStop]
      (by simp [run, model.Update, model.UpdateWith, startStop, keyMatches, quitKeys,
        startStopKeys, initialModel])
      (by simp [run, model.Update, model.UpdateWith, startStop, keyMatches, quitKeys,
        startStopKeys, initialModel, ProgressModel.New, ProgressModel.Percent])⟩

/-! ## The elapsed-to-fraction mapping of the tick handler -/

/-- The tick handler, on a running model that is not complete, stores the clamped
`tickFraction` of the incremented counter and the total. -/
theorem tick_sets_tickFraction (d : Int) (o : EvalOrder) (m : model)
    (hrun : m.isTimerRunning = true) (hne : m.progress.Percent ≠ 1) :
    (m.UpdateWith d o Msg.tickMsg).1.progress
      = (m.progress.SetPercent
          (tickFraction (wrapInt64 (m.timeElapsedSec + 1)) m.timeTotalSec)).1 := by
  simp only [model.UpdateWith, hne, hrun, ↓reduceIte, Bool.not_true, Bool.false_eq_true,
    tickFraction]
  split_ifs <;> rfl

/-- C11: the mapping of the tick handler (`1.0` when `elapsed ≥ total`, otherwise
`elapsed / total`) is non-decreasing in `elapsed`: for every `total ≥ 0` and all
`0 ≤ e1 ≤ e2` the fraction for `(e1, total)` is at most the fraction for `(e2, total)`,
before and after the clamp of `SetPercent`. -/
theorem tickFraction_monotone (total e1 e2 : Int) (ht : 0 ≤ total) (h1 : 0 ≤ e1)
    (h12 : e1 ≤ e2) :
    tickFraction e1 total ≤ tickFraction e2 total ∧
    (∀ p : ProgressModel,
      (p.SetPercent (tickFraction e1 total)).1.Percent
        ≤ (p.SetPercent (tickFraction e2 total)).1.Percent) := by
  have hmono : tickFraction e1 total ≤ tickFraction e2 total := by
    unfold tickFraction
    by_cases hc2 : e2 ≥ total
    · rw [if_pos hc2]
      by_cases hc1 : e1 ≥ total
      · rw [if_pos hc1]
      · rw [if_neg hc1]
        have htq : (0 : ℚ) < (total : ℚ) := by exact_mod_cast (by omega : (0 : Int) < total)
        rw [div_le_one htq]
        exact_mod_cast (by omega : e1 ≤ total)
    · have hc1 : ¬ e1 ≥ total := by omega
      rw [if_neg hc2, if_neg hc1]
      have htq : (0 : ℚ) ≤ (total : ℚ) := by exact_mod_cast ht
      apply div_le_div_of_nonneg_right _ htq
      exact_mod_cast h12
  refine ⟨hmono, ?_⟩
  intro p
  simp only [ProgressModel.SetPercent, ProgressModel.Percent]
  exact max_le_max le_rfl (min_le_min le_rfl hmono)

theorem tickFraction_monotone_witness :
    ((0 : Int) ≤ 1500 ∧ (0 : Int) ≤ 2 ∧ (2 : Int) ≤ 1700) ∧
    (tickFraction 2 1500 ≤ tickFraction 1700 1500 ∧
     (∀ p : ProgressModel,
      (p.SetPercent (tickFraction 2 1500)).1.Percent
        ≤ (p.SetPercent (tickFraction 1700 1500)).1.Percent)) :=
  ⟨⟨by decide, by decide, by decide⟩,
    tickFraction_monotone 1500 2 1700 (by decide) (by decide) (by decide)⟩

/-! ## Division by zero -/

/-- The division of line 93 is evaluated exactly on a tick that finds the fraction
different from `1.0`, the timer running and the incremented counter below the total. -/
theorem divisionOperands_tick_iff (m : model) (a b : Int) :
    m.divisionOperands Msg.tickMsg = some (a, b) ↔
      (m.progress.Percent ≠ 1 ∧ m.isTimerRunning = true ∧
        ¬ (wrapInt64 (m.timeElapsedSec + 1) ≥ m.timeTotalSec) ∧
        a = wrapInt64 (m.timeElapsedSec + 1) ∧ b = m.timeTotalSec) := by
  by_cases hp : m.progress.Percent = 1
  · simp [model.divisionOperands, hp]
  · cases hr : m.isTimerRunning
    · simp [model.divisionOperands, hp, hr]
    · by_cases hc : wrapInt64 (m.timeElapsedSec + 1) ≥ m.timeTotalSec
      · simp [model.divisionOperands, hp, hr, hc]
      · simp only [model.divisionOperands, hp, hr, hc, ↓reduceIte, Bool.not_true,
          Bool.false_eq_true, Option.some.injEq, Prod.mk.injEq, ne_eq, not_false_eq_true,
          true_and]
        constructor
        · rintro ⟨ha, hb⟩; exact ⟨ha.symm, hb.symm⟩
        · rintro ⟨ha, hb⟩; exact ⟨ha.symm, hb.symm⟩

/-- When `divisionOperands` reports a division, `Update` stores its clamped quotient. -/
theorem divisionOperands_used (d : Int) (o : EvalOrder) (m : model) (a b : Int)
    (h : m.divisionOperands Msg.tickMsg = some (a, b)) :
    (m.UpdateWith d o Msg.tickMsg).1.progress.Percent = max 0 (min 1 ((a : ℚ) / (b : ℚ))) := by
  obtain ⟨hp, hr, hc, ha, hb⟩ := (divisionOperands_tick_iff m a b).1 h
  rw [tick_sets_tickFraction d o m hr hp, tickFraction, if_neg hc, ha, hb]
  rfl

theorem InvZero_initialModel : InvZero initialModel := by
  intro _
  simp [initialModel, ProgressModel.New, ProgressModel.Percent]

theorem InvZero_step (o : EvalOrder) (m : model) (msg : Msg) (h : InvZero m) :
    InvZero (m.Update o msg).1 := by
  unfold InvZero at *
  cases msg with
  | KeyMsg k =>
    by_cases hq : keyMatches k quitKeys = true
    · simp only [model.Update, model.UpdateWith, hq, if_true]
      exact h
    · by_cases hs : keyMatches k startStopKeys = true
      · cases hr : m.isTimerRunning
        · simp [model.Update, model.UpdateWith, hq, hs, hr, secondsInt64_default]
        · intro ht
          have ht0 : m.timeTotalSec = 0 := by
            cases o <;>
              simpa [model.Update, model.UpdateWith, hq, hs, hr] using ht
          have := (h ht0).2
          rw [hr] at this
          cases this
      · simp only [model.Update, model.UpdateWith, hq, hs, if_false, Bool.false_eq_true]
        exact h
  | tickMsg =>
    by_cases hp : m.progress.Percent = 1
    · have hm : (m.Update o Msg.tickMsg).1 = m := by
        simp [model.Update, model.UpdateWith, hp]
      rw [hm]
      exact h
    · cases hr : m.isTimerRunning
      · have hm : (m.Update o Msg.tickMsg).1 = m := by
          simp [model.Update, model.UpdateWith, hp, hr]
        rw [hm]
        exact h
      · intro ht
        have ht0 : m.timeTotalSec = 0 := by
          simpa [model.Update, model.UpdateWith, hp, hr] using ht
        have := (h ht0).2
        rw [hr] at this
        cases this
  | FrameMsg =>
    simp only [model.Update, model.UpdateWith, ProgressModel.Update]
    exact h
  | errMsg e =>
    simp only [model.Update, model.UpdateWith]
    exact h
  | other =>
    simp only [model.Update, model.UpdateWith]
    exact h

theorem InvZero_run (o : EvalOrder) (msgs : List Msg) (m : model) (h : InvZero m) :
    InvZero (run o m msgs) := by
  induction msgs generalizing m with
  | nil => exact h
  | cons msg rest ih => exact ih _ (InvZero_step o m msg h)

/-- C12, as the claim states it, fails: on a running model with `timeTotalSec = 0` and
`timeElapsedSec` at the `int64` maximum (a non-negative value) the increment wraps to the
`int64` minimum, the comparison on line 90 is false and line 93 divides by a zero total. -/
theorem division_by_zero_total_at_max_elapsed :
    0 ≤ runningZeroTotalMaxElapsed.timeElapsedSec ∧
    runningZeroTotalMaxElapsed.timeTotalSec = 0 ∧
    runningZeroTotalMaxElapsed.divisionOperands Msg.tickMsg = some (minInt64, 0) := by
  have hw : wrapInt64 (maxInt64 + 1) = minInt64 := by decide
  refine ⟨by decide, rfl, ?_⟩
  simp only [model.divisionOperands, runningZeroTotalMaxElapsed, initialModel,
    ProgressModel.New, ProgressModel.Percent, hw]
  simp [minInt64]

/-- C12, amended: for every model state with `0 ≤ timeElapsedSec` below the `int64`
maximum and every message, if `Update` evaluates the division of line 93 then its divisor
is `timeTotalSec` and `timeTotalSec > 0`; and in every reachable state with
`timeTotalSec = 0` the progress fraction is `0.0`. -/
theorem division_only_by_positive_total (m : model) (msg : Msg)
    (h0 : 0 ≤ m.timeElapsedSec) (hlt : m.timeElapsedSec < maxInt64) (a b : Int)
    (h : m.divisionOperands msg = some (a, b)) :
    (b = m.timeTotalSec ∧ 0 < b) ∧
    (∀ (o : EvalOrder) (msgs : List Msg),
      (run o initialModel msgs).timeTotalSec = 0 →
      (run o initialModel msgs).progress.Percent = 0) := by
  constructor
  · have hwf : isInt64 m.timeElapsedSec := by
      unfold isInt64 minInt64; unfold maxInt64 at hlt ⊢; constructor <;> omega
    have hw := wrapInt64_succ m.timeElapsedSec hwf hlt
    cases msg with
    | tickMsg =>
      obtain ⟨_, _, hc, _, hb⟩ := (divisionOperands_tick_iff m a b).1 h
      rw [hw] at hc
      refine ⟨hb, ?_⟩
      rw [hb]
      omega
    | KeyMsg k => simp [model.divisionOperands] at h
    | FrameMsg => simp [model.divisionOperands] at h
    | errMsg e => simp [model.divisionOperands] at h
    | other => simp [model.divisionOperands] at h
  · intro o msgs ht
    exact (InvZero_run o msgs initialModel InvZero_initialModel ht).1

theorem division_only_by_positive_total_witness :
    (0 ≤ runningOneSecond.timeElapsedSec ∧ runningOneSecond.timeElapsedSec < maxInt64 ∧
      runningOneSecond.divisionOperands Msg.tickMsg = some (2, 1500)) ∧
    (((1500 : Int) = runningOneSecond.timeTotalSec ∧ (0 : Int) < 1500) ∧
    (∀ (o : EvalOrder) (msgs : List Msg),
      (run o initialModel msgs).timeTotalSec = 0 →
      (run o initialModel msgs).progress.Percent = 0)) :=
  have hw : wrapInt64 2 = 2 := by decide
  have hd : runningOneSecond.divisionOperands Msg.tickMsg = some (2, 1500) := by
    simp [model.divisionOperands, runningOneSecond, ProgressModel.Percent, hw]
  ⟨⟨by decide, by decide, hd⟩,
    division_only_by_positive_total runningOneSecond Msg.tickMsg (by decide) (by decide)
      2 1500 hd⟩

/-! ## Quit, completion and the initial model -/

/-- C13: `Update` on a tick returns the quit command if and only if the fraction of the
model is `1.0` when the tick arrives (the command neither is nor contains `tea.Quit`
otherwise); in a session, the tick after `k` ticks quits exactly when `k ≥ 1500`. -/
theorem tick_quits_iff_complete (o : EvalOrder) (m : model) :
    ((m.Update o Msg.tickMsg).2 = Cmd.Quit ↔ m.progress.Percent = 1) ∧
    ((m.Update o Msg.tickMsg).2.quits = true ↔ m.progress.Percent = 1) ∧
    (∀ k : Nat,
      ((run o initialModel (startStop :: ticks k)).Update o Msg.tickMsg).2 = Cmd.Quit
        ↔ (1500 : Int) ≤ k) := by
  have hgen : ∀ s : model,
      ((s.Update o Msg.tickMsg).2 = Cmd.Quit ↔ s.progress.Percent = 1) ∧
      ((s.Update o Msg.tickMsg).2.quits = true ↔ s.progress.Percent = 1) := by
    intro s
    by_cases hp : s.progress.Percent = 1
    · simp [model.Update, model.UpdateWith, hp, Cmd.quits]
    · cases hr : s.isTimerRunning
      · simp [model.Update, model.UpdateWith, hp, hr, Cmd.quits]
      · simp only [model.Update, model.UpdateWith, hp, hr, ↓reduceIte, Bool.not_true,
          Bool.false_eq_true, tickCmd, Cmd.quits, iff_false, Bool.false_or]
        constructor
        · intro h; cases h
        · split_ifs <;> simp [ProgressModel.SetPercent, Cmd.quits]
  refine ⟨(hgen m).1, (hgen m).2, ?_⟩
  intro k
  rw [(hgen _).1]
  obtain ⟨_, _, _, hp⟩ := session_default_duration o k
  rw [hp, div_eq_one_iff_eq (by norm_num)]
  constructor
  · intro h
    have h1 : min (k : Int) 1500 = 1500 := by exact_mod_cast h
    exact h1 ▸ min_le_left _ _
  · intro h
    rw [min_eq_right h]
    norm_num

/-- After a completed session (`j ≥ 1500` ticks) the model is running with fraction
`1.0`, and when the stop's `SetPercent(0.0)` takes effect the stop key sets it to `0`. -/
theorem stop_after_completion (j : Nat) (h : (1500 : Int) ≤ j) :
    (∀ o, (run o initialModel (startStop :: ticks j)).isTimerRunning = true) ∧
    (∀ o, (run o initialModel (startStop :: ticks j)).progress.Percent = 1) ∧
    ((run EvalOrder.callFirst initialModel (startStop :: ticks j)).Update
        EvalOrder.callFirst startStop).1.progress.Percent = 0 := by
  refine ⟨fun o => (session_default_duration o j).1, ?_, ?_⟩
  · intro o
    rw [(session_default_duration o j).2.2.2, min_eq_right h]
    norm_num
  · exact (stop_percent_by_order _ (session_default_duration _ j).1).1

/-- C14, as the claim states it, fails when the stop's `SetPercent(0.0)` takes effect in
the returned model: after start and 1500 ticks the fraction is `1.0`, and the stop key
leads to a state whose fraction is `0.0`. -/
theorem stop_leaves_complete :
    (run EvalOrder.callFirst initialModel (startStop :: ticks 1500)).progress.Percent = 1 ∧
    ((run EvalOrder.callFirst initialModel (startStop :: ticks 1500)).Update
        EvalOrder.callFirst startStop).1.progress.Percent = 0 ∧
    ((run EvalOrder.callFirst initialModel (startStop :: ticks 1500)).Update
        EvalOrder.callFirst startStop).1.progress.Percent ≠ 1 := by
  obtain ⟨_, h2, h3⟩ := stop_after_completion 1500 (by norm_num)
  refine ⟨h2 _, h3, ?_⟩
  rw [h3]
  norm_num

/-- C14, amended: from every reachable state whose fraction is `1.0`, a tick returns
the same model (fraction still `1.0`), and the start/stop key pressed while the timer
is not running (a start) leads to a state whose fraction is still `1.0`. -/
theorem complete_kept_by_tick_and_start (o : EvalOrder) (msgs : List Msg)
    (hp : (run o initialModel msgs).progress.Percent = 1) :
    ((run o initialModel msgs).Update o Msg.tickMsg).1 = run o initialModel msgs ∧
    ((run o initialModel msgs).Update o Msg.tickMsg).1.progress.Percent = 1 ∧
    ((run o initialModel msgs).isTimerRunning = false →
      ((run o initialModel msgs).Update o startStop).1.progress.Percent = 1) := by
  generalize run o initialModel msgs = s at hp
  have hm : (s.Update o Msg.tickMsg).1 = s := by
    simp [model.Update, model.UpdateWith, hp]
  refine ⟨hm, by rw [hm]; exact hp, ?_⟩
  intro hr
  simp [model.Update, model.UpdateWith, startStop, keyMatches, quitKeys, startStopKeys, hr,
    hp]

theorem complete_kept_by_tick_and_start_witness :
    (run EvalOrder.operandFirst initialModel (startStop :: ticks 1500)).progress.Percent = 1 ∧
    (((run EvalOrder.operandFirst initialModel (startStop :: ticks 1500)).Update
        EvalOrder.operandFirst Msg.tickMsg).1
        = run EvalOrder.operandFirst initialModel (startStop :: ticks 1500) ∧
    ((run EvalOrder.operandFirst initialModel (startStop :: ticks 1500)).Update
        EvalOrder.operandFirst Msg.tickMsg).1.progress.Percent = 1 ∧
    ((run EvalOrder.operandFirst initialModel (startStop :: ticks 1500)).isTimerRunning = false →
      ((run EvalOrder.operandFirst initialModel (startStop :: ticks 1500)).Update
        EvalOrder.operandFirst startStop).1.progress.Percent = 1)) :=
  ⟨(stop_after_completion 1500 (by norm_num)).2.1 EvalOrder.operandFirst,
    complete_kept_by_tick_and_start EvalOrder.operandFirst (startStop :: ticks 1500)
      ((stop_after_completion 1500 (by norm_num)).2.1 EvalOrder.operandFirst)⟩

/-- C15: `initialModel` has `timeTotalSec = 0`, `timeElapsedSec = 0`,
`isTimerRunning = false`, `quitting = false` and fraction `0.0`. -/
theorem initialModel_fields :
    initialModel.timeTotalSec = 0 ∧ initialModel.timeElapsedSec = 0 ∧
    initialModel.isTimerRunning = false ∧ initialModel.quitting = false ∧
    initialModel.progress.Percent = 0 :=
  ⟨rfl, rfl, rfl, rfl, rfl⟩

/-! ## Frame of the other messages, and the stopped state -/

/-- C17: for every model state and every message that is neither a tick nor a
start/stop key press (quit keys, other keys, frame, error and unknown messages),
`Update` returns a model with the same `timeTotalSec`, `timeElapsedSec` and
`isTimerRunning`. -/
theorem other_messages_keep_timer (o : EvalOrder) (m : model) (msg : Msg)
    (htick : msg ≠ Msg.tickMsg)
    (hkey : ∀ k, msg = Msg.KeyMsg k → keyMatches k startStopKeys = false) :
    (m.Update o msg).1.timeTotalSec = m.timeTotalSec ∧
    (m.Update o msg).1.timeElapsedSec = m.timeElapsedSec ∧
    (m.Update o msg).1.isTimerRunning = m.isTimerRunning := by
  cases msg with
  | KeyMsg k =>
    have hs := hkey k rfl
    by_cases hq : keyMatches k quitKeys = true
    · simp [model.Update, model.UpdateWith, hq]
    · simp [model.Update, model.UpdateWith, hq, hs]
  | tickMsg => exact absurd rfl htick
  | FrameMsg => simp [model.Update, model.UpdateWith]
  | errMsg e => simp [model.Update, model.UpdateWith]
  | other => simp [model.Update, model.UpdateWith]

theorem other_messages_keep_timer_witness :
    (Msg.KeyMsg "q" ≠ Msg.tickMsg ∧
      (∀ k, Msg.KeyMsg "q" = Msg.KeyMsg k → keyMatches k startStopKeys = false)) ∧
    ((runningOneSecond.Update EvalOrder.callFirst (Msg.KeyMsg "q")).1.timeTotalSec
        = runningOneSecond.timeTotalSec ∧
     (runningOneSecond.Update EvalOrder.callFirst (Msg.KeyMsg "q")).1.timeElapsedSec
        = runningOneSecond.timeElapsedSec ∧
     (runningOneSecond.Update EvalOrder.callFirst (Msg.KeyMsg "q")).1.isTimerRunning
        = runningOneSecond.isTimerRunning) :=
  have hk : ∀ k, Msg.KeyMsg "q" = Msg.KeyMsg k → keyMatches k startStopKeys = false := by
    intro k h
    cases h
    decide
  ⟨⟨by simp, hk⟩,
    other_messages_keep_timer EvalOrder.callFirst runningOneSecond (Msg.KeyMsg "q")
      (by simp) hk⟩

/-- C18, as the claim states it, fails for either evaluation order: after start, one
tick and stop the timer is not running and `timeElapsedSec` is `1`. -/
theorem stopped_with_elapsed_one :
    ((run EvalOrder.callFirst initialModel
        [startStop, Msg.tickMsg, startStop]).isTimerRunning = false ∧
      (run EvalOrder.callFirst initialModel
        [startStop, Msg.tickMsg, startStop]).timeElapsedSec = 1) ∧
    ((run EvalOrder.operandFirst initialModel
        [startStop, Msg.tickMsg, startStop]).isTimerRunning = false ∧
      (run EvalOrder.operandFirst initialModel
        [startStop, Msg.tickMsg, startStop]).timeElapsedSec = 1) := by
  have h1 : ∀ o, run o initialModel [startStop, Msg.tickMsg, startStop]
      = run o runningOneSecond [startStop] := by
    intro o
    rw [← runningOneSecond_reachable o, ← run_append]; rfl
  rw [h1, h1]
  constructor <;>
    simp [run, model.Update, model.UpdateWith, startStop, keyMatches, quitKeys,
      startStopKeys, runningOneSecond]

/-- C18, amended: the stop key stops the timer and keeps the counters, and the next
start resets the elapsed counter: for every running model the stop key returns
`isTimerRunning = false` with `timeElapsedSec` and `timeTotalSec` unchanged, and a start
after it returns `timeElapsedSec = 0`; in every reachable state that is not running,
`0 ≤ timeElapsedSec ≤ timeTotalSec`. -/
theorem stop_keeps_elapsed (o : EvalOrder) (m : model) (hrun : m.isTimerRunning = true) :
    ((m.Update o startStop).1.isTimerRunning = false ∧
     (m.Update o startStop).1.timeElapsedSec = m.timeElapsedSec ∧
     (m.Update o startStop).1.timeTotalSec = m.timeTotalSec ∧
     ((m.Update o startStop).1.Update o startStop).1.timeElapsedSec = 0) ∧
    (∀ msgs : List Msg, (run o initialModel msgs).isTimerRunning = false →
      0 ≤ (run o initialModel msgs).timeElapsedSec ∧
      (run o initialModel msgs).timeElapsedSec ≤ (run o initialModel msgs).timeTotalSec) := by
  constructor
  · cases o <;>
      simp [model.Update, model.UpdateWith, startStop, keyMatches, quitKeys, startStopKeys,
        hrun]
  · intro msgs _
    have h := Inv_run o msgs initialModel Inv_initialModel
    exact ⟨h.2.2.1, h.2.2.2.1⟩

theorem stop_keeps_elapsed_witness :
    runningOneSecond.isTimerRunning = true ∧
    (((runningOneSecond.Update EvalOrder.operandFirst startStop).1.isTimerRunning = false ∧
     (runningOneSecond.Update EvalOrder.operandFirst startStop).1.timeElapsedSec
        = runningOneSecond.timeElapsedSec ∧
     (runningOneSecond.Update EvalOrder.operandFirst startStop).1.timeTotalSec
        = runningOneSecond.timeTotalSec ∧
     ((runningOneSecond.Update EvalOrder.operandFirst startStop).1.Update
        EvalOrder.operandFirst startStop).1.timeElapsedSec = 0) ∧
    (∀ msgs : List Msg,
      (run EvalOrder.operandFirst initialModel msgs).isTimerRunning = false →
      0 ≤ (run EvalOrder.operandFirst initialModel msgs).timeElapsedSec ∧
      (run EvalOrder.operandFirst initialModel msgs).timeElapsedSec
        ≤ (run EvalOrder.operandFirst initialModel msgs).timeTotalSec)) :=
  ⟨rfl, stop_keeps_elapsed EvalOrder.operandFirst runningOneSecond rfl⟩

/-! ## Outstanding ticks -/

/-- C16 (the code at the failing input): start, stop, start before the first tick is
delivered leaves two ticks outstanding, for either evaluation order; each of the two is
then delivered to a running timer and schedules its successor, so after two deliveries
the elapsed counter is `2` and two ticks are still outstanding. -/
theorem toggling_doubles_ticks :
    (∀ o : EvalOrder,
      Option.map TimerSystem.pending
        (TimerSystem.deliverAll o TimerSystem.start [startStop, startStop, startStop])
        = some 2) ∧
    (∀ o : EvalOrder,
      Option.map (fun s => (s.pending, s.m.timeElapsedSec, s.m.isTimerRunning))
        (TimerSystem.deliverAll o TimerSystem.start
          [startStop, startStop, startStop, Msg.tickMsg, Msg.tickMsg])
        = some (2, 2, true)) := by
  have hw1 : wrapInt64 1 = 1 := by decide
  have hw2 : wrapInt64 2 = 2 := by decide
  have hq : ¬ ((1 : ℚ) ≤ 1500⁻¹) := by norm_num
  constructor
  · intro o
    cases o <;>
      simp [TimerSystem.deliverAll, TimerSystem.deliver, TimerSystem.start, model.Update,
        model.UpdateWith, startStop, keyMatches, quitKeys, startStopKeys, initialModel,
        Cmd.tickCount, tickCmd, ProgressModel.SetPercent]
  · intro o
    cases o <;>
      simp [TimerSystem.deliverAll, TimerSystem.deliver, TimerSystem.start, model.Update,
        model.UpdateWith, startStop, keyMatches, quitKeys, startStopKeys, initialModel,
        Cmd.tickCount, tickCmd, ProgressModel.SetPercent, ProgressModel.Percent,
        ProgressModel.New, secondsInt64_default, hw1, hw2, hq]

end Pomodoro
